import Mathlib

/-!
Verification development for the effect-opc-ua repository: a shallow
embedding of the OPC UA NodeSet catalog, loader, node-graph assembler and
search/render layer, together with theorems settling the specification
claims about them.

Conventions of the embedding:
* JavaScript `Map` objects (insertion-ordered, `set` replaces in place)
  are modelled as association lists `List (String × α)` with `jsSet`,
  `jsGet`, `jsHas`, `jsValues`, `jsKeys`.
* JavaScript strings handled purely as line sequences (the pagination
  handler) are modelled as `List Char`; `split("\n")` is `List.splitOn`
  and `join("\n")` is `List.intercalate` with separator `['\n']`.
* `String.prototype.includes` is `jsIncludes` (substring test).
-/

/-- Model of a JavaScript `Map` lookup: first (and, for the maps built
here, only) binding of the key. -/
def jsGet (m : List (String × α)) (k : String) : Option α :=
  (m.find? (fun p => p.1 == k)).map (fun p => p.2)

/-- Model of `Map.prototype.has`. -/
def jsHas (m : List (String × α)) (k : String) : Bool :=
  m.any (fun p => p.1 == k)

/-- Model of `Map.prototype.set`: replaces the binding in place when the
key is present (JavaScript maps keep the original insertion position),
otherwise appends a new binding. -/
def jsSet (m : List (String × α)) (k : String) (v : α) : List (String × α) :=
  if jsHas m k then
    m.map (fun p => if p.1 == k then (k, v) else p)
  else
    m ++ [(k, v)]

/-- Model of `Map.prototype.values` (insertion order). -/
def jsValues (m : List (String × α)) : List α :=
  m.map (fun p => p.2)

/-- Model of `Map.prototype.keys` (insertion order). -/
def jsKeys (m : List (String × α)) : List String :=
  m.map (fun p => p.1)

/-- Model of `String.prototype.includes`: substring containment. -/
def jsIncludes (s pat : String) : Bool :=
  decide (pat.data <:+: s.data)

/-- The four identifier kinds of the `NodeId` schema, literally
`"Numeric" | "String" | "Guid" | "Opaque"` in `src/opcua/types.ts`. -/
inductive IdentifierType where
  | numeric
  | stringKind
  | guid
  | opaqueKind
deriving DecidableEq, Repr

/-- The value of `identifierType.toLowerCase()` used by
`NodeId.toString`. -/
def IdentifierType.toLowerCase : IdentifierType → String
  | .numeric => "numeric"
  | .stringKind => "string"
  | .guid => "guid"
  | .opaqueKind => "opaque"

/-- `NodeId` from `src/opcua/types.ts`. -/
structure NodeId where
  namespaceIndex : Nat
  identifierType : IdentifierType
  identifier : String
deriving DecidableEq, Repr

/-- `NodeId.toString` from `src/opcua/types.ts`: the canonical string
form used as the graph index and reference-target key. -/
def NodeId.toString (n : NodeId) : String :=
  "ns=" ++ Nat.repr n.namespaceIndex ++ ";" ++
    n.identifierType.toLowerCase ++ "=" ++ n.identifier

/-- `NodeClass` literal union from `src/opcua/types.ts`. -/
inductive NodeClass where
  | object
  | variable
  | method
  | objectType
  | variableType
  | referenceType
  | dataType
  | view
deriving DecidableEq, Repr

/-- `Reference` from `src/opcua/types.ts`. -/
structure Reference where
  referenceType : String
  isForward : Bool
  targetNodeId : NodeId
deriving DecidableEq, Repr

/-- `LocalizedText` from `src/opcua/types.ts`. -/
structure LocalizedText where
  locale : Option String
  text : String
deriving DecidableEq, Repr

/-- `ParsedUANode` from `src/opcua/types.ts`. -/
structure ParsedUANode where
  nodeId : NodeId
  nodeClass : NodeClass
  browseName : String
  displayName : LocalizedText
  description : Option LocalizedText
  namespaceUri : Option String
  references : List Reference
  dataType : Option String
  valueRank : Option Int
  isAbstract : Option Bool
  symmetric : Option Bool
deriving DecidableEq, Repr

/-- `NamespaceMetadata` from `src/opcua/types.ts`. -/
structure NamespaceMetadata where
  uri : String
  publicationDate : Option String
  version : Option String
deriving DecidableEq, Repr

/-- `NodeSet` from `src/opcua/types.ts`. -/
structure NodeSet where
  namespaces : List NamespaceMetadata
  nodes : List ParsedUANode
deriving DecidableEq, Repr

/-- `getNodeClass` from `src/opcua/NodeSetLoader.ts` (the earlier loader
variant): tests the substring `"Object"` before `"ObjectType"`. -/
def NodeSetLoader.getNodeClass (tagName : String) : NodeClass :=
  if jsIncludes tagName ("Object") then .object
  else if jsIncludes tagName ("Variable") then .variable
  else if jsIncludes tagName ("Method") then .method
  else if jsIncludes tagName ("ObjectType") then .objectType
  else if jsIncludes tagName ("VariableType") then .variableType
  else if jsIncludes tagName ("ReferenceType") then .referenceType
  else if jsIncludes tagName ("DataType") then .dataType
  else if jsIncludes tagName ("View") then .view
  else .object

/-- `getNodeClass` from the catalog-driven loader
(`NodeSetLoaderSource`): tests the `...Type` substrings first. -/
def NodeSetLoaderSource.getNodeClass (tagName : String) : NodeClass :=
  if jsIncludes tagName ("ObjectType") then .objectType
  else if jsIncludes tagName ("VariableType") then .variableType
  else if jsIncludes tagName ("ReferenceType") then .referenceType
  else if jsIncludes tagName ("DataType") then .dataType
  else if jsIncludes tagName ("Method") then .method
  else if jsIncludes tagName ("Variable") then .variable
  else if jsIncludes tagName ("View") then .view
  else .object

/-- The node-kind section tags scanned by `parseNodeSetXml` in both
loader variants, in scan order. -/
def nodeTypeTags : List String :=
  ["UAObject", "UAVariable", "UAMethod", "UAObjectType",
   "UAVariableType", "UAReferenceType", "UADataType", "UAView"]

/-- The section-to-class mapping the specification asserts. -/
def specSectionClass : String → Option NodeClass
  | "UAObject" => some .object
  | "UAVariable" => some .variable
  | "UAMethod" => some .method
  | "UAObjectType" => some .objectType
  | "UAVariableType" => some .variableType
  | "UAReferenceType" => some .referenceType
  | "UADataType" => some .dataType
  | "UAView" => some .view
  | _ => none

/-- `ReferenceGroup` from `src/opcua/NodeGraph.ts`. -/
structure ReferenceGroup where
  referenceType : String
  targets : List String
deriving DecidableEq, Repr

/-- `NodeGraphEntry` from `src/opcua/NodeGraph.ts`. -/
structure NodeGraphEntry where
  node : ParsedUANode
  forwardReferences : List ReferenceGroup
  inverseReferences : List ReferenceGroup
  browsePath : String
deriving DecidableEq, Repr

/-- `Array.from(map.entries()).map(([referenceType, targets]) =>
({referenceType, targets}))` from `buildGraph`. -/
def toGroups (m : List (String × List String)) : List ReferenceGroup :=
  m.map (fun p => { referenceType := p.1, targets := p.2 })

/-- First pass of `NodeGraph.buildGraph`, inner loop: group a node's
forward references by type, preserving source order of targets. -/
def NodeGraph.groupForwardRefs (refs : List Reference) : List (String × List String) :=
  refs.foldl
    (fun m ref =>
      if ref.isForward then
        jsSet m ref.referenceType
          ((jsGet m ref.referenceType).getD [] ++ [ref.targetNodeId.toString])
      else m)
    []

/-- The provisional entry recorded for a node by the first pass of
`NodeGraph.buildGraph`: grouped forward references, empty inverse
references and `browsePath = browseName`. -/
def NodeGraph.initialEntry (node : ParsedUANode) : NodeGraphEntry :=
  { node := node
    forwardReferences := toGroups (NodeGraph.groupForwardRefs node.references)
    inverseReferences := []
    browsePath := node.browseName }

/-- First pass of `NodeGraph.buildGraph`: one provisional entry per node,
keyed by the canonical node-id string. -/
def NodeGraph.pass1 (nodes : List ParsedUANode) : List (String × NodeGraphEntry) :=
  nodes.foldl
    (fun m node => jsSet m node.nodeId.toString (NodeGraph.initialEntry node))
    []

/-- Second pass of `NodeGraph.buildGraph`, inner scan: the inverse
reference groups of the node keyed `nodeId`, mirrored from every forward
reference in the whole node list that targets `nodeId`. -/
def NodeGraph.inverseRefsFor (nodes : List ParsedUANode) (nodeId : String) :
    List (String × List String) :=
  nodes.foldl
    (fun m node =>
      node.references.foldl
        (fun m ref =>
          if ref.isForward && (ref.targetNodeId.toString == nodeId) then
            jsSet m ref.referenceType
              ((jsGet m ref.referenceType).getD [] ++ [node.nodeId.toString])
          else m)
        m)
    []

/-- Second pass of `NodeGraph.buildGraph`: iterate the map entries in
insertion order, replacing each entry's `inverseReferences`. -/
def NodeGraph.pass2 (nodes : List ParsedUANode)
    (m0 : List (String × NodeGraphEntry)) : List (String × NodeGraphEntry) :=
  (jsKeys m0).foldl
    (fun m k =>
      match jsGet m k with
      | none => m
      | some e =>
          jsSet m k
            { e with inverseReferences := toGroups (NodeGraph.inverseRefsFor nodes k) })
    m0

/-- The filter of the third pass: the node's own declared non-forward
references whose type name contains `HasComponent`, `Organizes` or
`HasProperty` (substring tests, as in the source). -/
def NodeGraph.parentRefs (node : ParsedUANode) : List Reference :=
  node.references.filter
    (fun ref =>
      !ref.isForward &&
        (jsIncludes ref.referenceType ("HasComponent") ||
          jsIncludes ref.referenceType ("Organizes") ||
          jsIncludes ref.referenceType ("HasProperty")))

/-- Third-pass body of `NodeGraph.buildGraph` (the `src/opcua/NodeGraph.ts`
variant): start from the node's `browseName`; if the first qualifying
declared parent reference targets a node present in the map, prefix that
parent's `browseName` (the second file variant prefixes the parent's
`browsePath` instead). -/
def NodeGraph.browsePathOf (m : List (String × NodeGraphEntry))
    (node : ParsedUANode) : String :=
  match NodeGraph.parentRefs node with
  | [] => node.browseName
  | r :: _ =>
      match jsGet m r.targetNodeId.toString with
      | none => node.browseName
      | some parentEntry => parentEntry.node.browseName ++ "/" ++ node.browseName

/-- Third pass of `NodeGraph.buildGraph`: iterate the map entries in
insertion order, replacing each entry's `browsePath`; parent entries are
read from the live map. -/
def NodeGraph.pass3 (m0 : List (String × NodeGraphEntry)) :
    List (String × NodeGraphEntry) :=
  (jsKeys m0).foldl
    (fun m k =>
      match jsGet m k with
      | none => m
      | some e => jsSet m k { e with browsePath := NodeGraph.browsePathOf m e.node })
    m0

/-- `NodeGraph.buildGraph` from `src/opcua/NodeGraph.ts`: the final map
from canonical node-id strings to graph entries. -/
def NodeGraph.buildGraph (nodes : List ParsedUANode) : List (String × NodeGraphEntry) :=
  NodeGraph.pass3 (NodeGraph.pass2 nodes (NodeGraph.pass1 nodes))

/-- `NodeGraph.getNode`. -/
def NodeGraph.getNode (m : List (String × NodeGraphEntry)) (nodeId : String) :
    Option NodeGraphEntry :=
  jsGet m nodeId

/-- `NodeGraph.getAllNodes`. -/
def NodeGraph.getAllNodes (m : List (String × NodeGraphEntry)) : List NodeGraphEntry :=
  jsValues m

/-- The key-to-node projection of a graph map; the second and third
passes never change it. -/
def NodeGraph.nodesOf (m : List (String × NodeGraphEntry)) : List (String × ParsedUANode) :=
  m.map (fun p => (p.1, p.2.node))

/-- The entry replacement performed by the third pass: only the browse
path changes. -/
def NodeGraph.pass3Val (m : List (String × NodeGraphEntry)) (e : NodeGraphEntry) :
    NodeGraphEntry :=
  { e with browsePath := NodeGraph.browsePathOf m e.node }

/-- Helper to build a plain node with the given identifier, class, browse
name and references; all optional fields absent. -/
def mkNode (idStr : String) (cls : NodeClass) (name : String)
    (refs : List Reference) : ParsedUANode :=
  { nodeId := { namespaceIndex := 0, identifierType := .numeric, identifier := idStr }
    nodeClass := cls
    browseName := name
    displayName := { locale := none, text := name }
    description := none
    namespaceUri := none
    references := refs
    dataType := none
    valueRank := none
    isAbstract := none
    symmetric := none }

/-- The scenario document of the spec: an Object `Motor1` (`ns=0;i=100`)
with one forward `HasComponent` reference to a Variable `SerialNumber`
(`ns=0;i=101`), which itself declares no references. -/
def motorNode : ParsedUANode :=
  mkNode ("100") .object ("Motor1")
    [{ referenceType := "HasComponent", isForward := true
       targetNodeId := { namespaceIndex := 0, identifierType := .numeric, identifier := "101" } }]

/-- The `SerialNumber` Variable of the scenario document. -/
def serialNode : ParsedUANode :=
  mkNode ("101") .variable ("SerialNumber") []

/-- The two-node scenario document. -/
def motorDoc : List ParsedUANode := [motorNode, serialNode]

/-- A node that shares its identifier with another input node. -/
def dupNode : ParsedUANode := mkNode ("1") .object ("A") []

/-- A three-node containment chain `A ← B ← C`, each child declaring its
own inverse `HasComponent` reference to its parent, listed parents
first. -/
def chainNodes : List ParsedUANode :=
  [mkNode ("1") .object ("A") [],
   mkNode ("2") .object ("B")
     [{ referenceType := "HasComponent", isForward := false
        targetNodeId := { namespaceIndex := 0, identifierType := .numeric, identifier := "1" } }],
   mkNode ("3") .object ("C")
     [{ referenceType := "HasComponent", isForward := false
        targetNodeId := { namespaceIndex := 0, identifierType := .numeric, identifier := "2" } }]]

/-- The final graph entry of a single-node document. -/
def aFinalEntry : NodeGraphEntry :=
  { node := dupNode
    forwardReferences := []
    inverseReferences := []
    browsePath := "A" }

/-- `mergeNodeSets` from the catalog-driven loader: concatenates the
namespace lists and the node lists of the given documents, in order. -/
def mergeNodeSets (nodeSets : List NodeSet) : NodeSet :=
  { namespaces := nodeSets.flatMap (fun ns => ns.namespaces)
    nodes := nodeSets.flatMap (fun ns => ns.nodes) }

/-- A namespace record with only a uri. -/
def nsMeta (u : String) : NamespaceMetadata :=
  { uri := u, publicationDate := none, version := none }

/-- A document declaring one namespace uri and no nodes. -/
def nsDocA : NodeSet := { namespaces := [nsMeta ("http://a/")], nodes := [] }

def pageSize : Nat := 1000

structure DocPage where
  content : List Char
  page : Nat
  totalPages : Nat
deriving DecidableEq, Repr

def getOpcUaDoc (content : List Char) (pageNum : Nat) : DocPage :=
  let lines := content.splitOn '\n'
  let pages := (lines.length + pageSize - 1) / pageSize
  let offset := (pageNum - 1) * pageSize
  { content := List.intercalate ['\n'] ((lines.drop offset).take pageSize)
    page := pageNum
    totalPages := pages }

def bigContent : List Char := List.replicate 1000 '\n'

/-- JavaScript `String.prototype.trim` on the character sequence. -/
def jsTrim (l : List Char) : List Char :=
  ((l.dropWhile Char.isWhitespace).reverse.dropWhile Char.isWhitespace).reverse

/-- `normalize` from `src/opcua/NodeSetCatalog.ts`:
`value.trim().toLowerCase()` (character-wise lowering, as JavaScript does
for ASCII slugs). -/
def NodeSetCatalog.normalize (value : String) : String :=
  String.mk ((jsTrim value.data).map Char.toLower)

/-- `NodeSetCatalogEntry` from `src/opcua/types.ts`. -/
structure NodeSetCatalogEntry where
  slug : String
  name : String
  description : Option String
  category : Option String
  documentationUrl : Option String
  tags : List String
  namespaceUris : List String
  nodeSetUrl : String
  dependencies : List String
  defaultSelection : Bool
deriving DecidableEq, Repr

/-- The last entry of a list whose normalized slug is `s`. -/
def lastSlugMatch (entries : List NodeSetCatalogEntry) (s : String) :
    Option NodeSetCatalogEntry :=
  entries.reverse.find? (fun e => NodeSetCatalog.normalize e.slug == s)

/-- The first entry of a list whose normalized slug is `s`. -/
def firstSlugMatch (entries : List NodeSetCatalogEntry) (s : String) :
    Option NodeSetCatalogEntry :=
  entries.find? (fun e => NodeSetCatalog.normalize e.slug == s)

/-- Every binding of a catalog map keys its entry by the entry's own
normalized slug. -/
def slugInvariant (m : List (String × NodeSetCatalogEntry)) : Prop :=
  ∀ p ∈ m, NodeSetCatalog.normalize p.2.slug = p.1

/-- The map built by `mergeEntries` in `src/opcua/NodeSetCatalog.ts`:
primary entries are set unconditionally, fallback entries only when the
slug is absent, override entries unconditionally. -/
def mergeMap (primary fallback overrides : List NodeSetCatalogEntry) :
    List (String × NodeSetCatalogEntry) :=
  let m1 := primary.foldl (fun m entry => jsSet m (NodeSetCatalog.normalize entry.slug) entry) []
  let m2 := fallback.foldl
    (fun m entry =>
      if jsHas m (NodeSetCatalog.normalize entry.slug) then m
      else jsSet m (NodeSetCatalog.normalize entry.slug) entry) m1
  overrides.foldl (fun m entry => jsSet m (NodeSetCatalog.normalize entry.slug) entry) m2

/-- `mergeEntries` from `src/opcua/NodeSetCatalog.ts`:
`Array.from(map.values())` of the merge map. -/
def mergeEntries (primary fallback overrides : List NodeSetCatalogEntry) :
    List NodeSetCatalogEntry :=
  jsValues (mergeMap primary fallback overrides)

/-- `builtinEntries` from `src/opcua/NodeSetCatalog.ts` (the seven
hand-curated catalog entries shipped with the system). -/
def builtinEntries : List NodeSetCatalogEntry :=
  [{ slug := "core"
     name := "OPC UA Core (NodeSet2)"
     description := some
       "Base OPC UA information model containing the core NodeClasses and reference definitions."
     category := some "Core"
     documentationUrl := some "https://reference.opcfoundation.org/Core/Part3/v105/docs/"
     tags := ["core", "standard", "opc", "ua"]
     namespaceUris := ["http://opcfoundation.org/UA/"]
     nodeSetUrl := "https://raw.githubusercontent.com/OPCFoundation/UA-Nodeset/latest/Schema/Opc.Ua.NodeSet2.xml"
     dependencies := []
     defaultSelection := true },
   { slug := "di"
     name := "Device Integration (DI)"
     description := some
       "Companion specification defining reusable components for device integration models."
     category := some "Companion Specification"
     documentationUrl := some "https://reference.opcfoundation.org/DI/v103/docs/"
     tags := ["device", "integration", "companion"]
     namespaceUris := ["http://opcfoundation.org/UA/DI/"]
     nodeSetUrl := "https://raw.githubusercontent.com/OPCFoundation/UA-Nodeset/latest/DI/Opc.Ua.Di.NodeSet2.xml"
     dependencies := ["core"]
     defaultSelection := true },
   { slug := "packml"
     name := "PackML"
     description := some
       "Packaging machine language companion model extending the DI base types."
     category := some "Companion Specification"
     documentationUrl := some
       "https://opcfoundation.org/developer-tools/specifications-opc-ua-information-models/packml/"
     tags := ["packml", "packaging", "machine"]
     namespaceUris := ["http://opcfoundation.org/UA/PackML/"]
     nodeSetUrl := "https://raw.githubusercontent.com/OPCFoundation/UA-Nodeset/latest/PackML/Opc.Ua.PackML.NodeSet2.xml"
     dependencies := ["core", "di"]
     defaultSelection := true },
   { slug := "adi"
     name := "Analyzer Devices (ADI)"
     description := some
       "Information model for analyzer device integration with lab and process systems."
     category := some "Companion Specification"
     documentationUrl := some
       "https://opcfoundation.org/developer-tools/specifications-opc-ua-information-models/analyzer-devices/"
     tags := ["analyzer", "devices", "process"]
     namespaceUris := ["http://opcfoundation.org/UA/ADI/"]
     nodeSetUrl := "https://raw.githubusercontent.com/OPCFoundation/UA-Nodeset/latest/ADI/Opc.Ua.Adi.NodeSet2.xml"
     dependencies := ["core", "di"]
     defaultSelection := false },
   { slug := "autoid"
     name := "AutoID"
     description := some
       "AutoID companion specification covering RFID, barcode, and related identification systems."
     category := some "Companion Specification"
     documentationUrl := some
       "https://opcfoundation.org/developer-tools/specifications-opc-ua-information-models/autoid/"
     tags := ["autoid", "rfid", "barcode"]
     namespaceUris := ["http://opcfoundation.org/UA/AutoID/"]
     nodeSetUrl := "https://raw.githubusercontent.com/OPCFoundation/UA-Nodeset/latest/AutoID/Opc.Ua.AutoID.NodeSet2.xml"
     dependencies := ["core"]
     defaultSelection := false },
   { slug := "machinery"
     name := "Machinery"
     description := some
       "Base machinery companion model providing common equipment abstractions."
     category := some "Companion Specification"
     documentationUrl := some
       "https://opcfoundation.org/developer-tools/specifications-opc-ua-information-models/machinery/"
     tags := ["machinery", "equipment", "companion"]
     namespaceUris := ["http://opcfoundation.org/UA/Machinery/"]
     nodeSetUrl := "https://raw.githubusercontent.com/OPCFoundation/UA-Nodeset/latest/Machinery/Opc.Ua.Machinery.NodeSet2.xml"
     dependencies := ["core"]
     defaultSelection := false },
   { slug := "robotics"
     name := "Robotics"
     description := some
       "Robotics companion information model extending the machinery framework."
     category := some "Companion Specification"
     documentationUrl := some
       "https://opcfoundation.org/developer-tools/specifications-opc-ua-information-models/robotics/"
     tags := ["robotics", "motion", "companion"]
     namespaceUris := ["http://opcfoundation.org/UA/Robotics/"]
     nodeSetUrl := "https://raw.githubusercontent.com/OPCFoundation/UA-Nodeset/latest/Robotics/Opc.Ua.Robotics.NodeSet2.xml"
     dependencies := ["core", "machinery"]
     defaultSelection := false }]

/-- `computeEntries` from `src/opcua/NodeSetCatalog.ts`, with the
remote-discovery outcome passed explicitly: `none` models a
`NodeSetCatalogFetchError` absorbed by the `catchAll` fallback to the
built-in entries, `some r` a successful discovery returning `r`. -/
def computeEntries (remote : Option (List NodeSetCatalogEntry))
    (persisted : List NodeSetCatalogEntry) : List NodeSetCatalogEntry :=
  let remoteEntries := remote.getD builtinEntries
  let mergedRemote := mergeEntries remoteEntries builtinEntries []
  mergeEntries mergedRemote [] persisted

/-- `NodeSetCatalog.resolve`: the first merged entry whose normalized
slug matches; `none` models the `NodeSetCatalogNotFound` failure. -/
def NodeSetCatalog.resolve (remote : Option (List NodeSetCatalogEntry))
    (persisted : List NodeSetCatalogEntry) (slug : String) :
    Option NodeSetCatalogEntry :=
  (computeEntries remote persisted).find?
    (fun candidate =>
      NodeSetCatalog.normalize candidate.slug == NodeSetCatalog.normalize slug)

/-- A persisted user override for the slug `core`, as `addNodeSet`
would store it. -/
def coreOverride : NodeSetCatalogEntry :=
  { slug := "core"
    name := "Custom Core Override"
    description := some "User-supplied replacement for the core entry"
    category := some "Core"
    documentationUrl := none
    tags := ["core", "custom"]
    namespaceUris := ["http://opcfoundation.org/UA/"]
    nodeSetUrl := "https://example.com/custom-core.xml"
    dependencies := []
    defaultSelection := true }

/-- `cacheKey` from the catalog-driven loader: `nodesets/<slug>`. -/
def cacheKey (slug : String) : String := "nodesets/" ++ slug

/-- The observable state of the loader's collaborators: the in-memory
cache tier, the persistent key-value store, and counters for the
document-fetch and parse operations performed by `NodeSetLoaderSource`. -/
structure LoaderState where
  memCache : List (String × NodeSet)
  store : List (String × NodeSet)
  fetchCalls : Nat
  parseCalls : Nat
deriving DecidableEq, Repr

/-- The `Cache.make` lookup of `NodeSetLoader`: check the persistent
store under `nodesets/<slug>` first; on a hit, return the stored
document unchanged and trusted as-is (the `catalog.resolve` call on this
path only provides a display name for the log line); on a miss, run the
source load (fetch plus parse, abstracted as `loadBySlug`) and persist
its result before returning it. -/
def cacheLookup (loadBySlug : String → LoaderState → NodeSet × LoaderState)
    (slug : String) (st : LoaderState) : NodeSet × LoaderState :=
  match jsGet st.store (cacheKey slug) with
  | some persisted => (persisted, st)
  | none =>
      let r := loadBySlug slug st
      (r.1, { r.2 with store := jsSet r.2.store (cacheKey slug) r.1 })

/-- `NodeSetLoader.loadNodeSet` / `loadNodeSetBySlug` through the
in-memory `Cache`: a live in-memory entry is returned as-is; otherwise
the lookup above runs and its result is memoized. Time-based expiry is
not modelled: an absent `memCache` binding covers both the fresh and the
expired slug. -/
def loadNodeSet (loadBySlug : String → LoaderState → NodeSet × LoaderState)
    (slug : String) (st : LoaderState) : NodeSet × LoaderState :=
  match jsGet st.memCache slug with
  | some cached => (cached, st)
  | none =>
      let r := cacheLookup loadBySlug slug st
      (r.1, { r.2 with memCache := jsSet r.2.memCache slug r.1 })

/-- A small concrete document for the witness. -/
def demoNodeSet : NodeSet :=
  { namespaces := [nsMeta ("http://opcfoundation.org/UA/DI/")], nodes := [dupNode] }

/-- A source loader that would count one fetch and one parse if it ran. -/
def demoLoad : String → LoaderState → NodeSet × LoaderState :=
  fun _ st =>
    ({ namespaces := [], nodes := [] },
      { st with fetchCalls := st.fetchCalls + 1, parseCalls := st.parseCalls + 1 })

/-- A fresh process state whose persistent store already holds the `di`
document. -/
def demoState : LoaderState :=
  { memCache := []
    store := [(cacheKey ("di"), demoNodeSet)]
    fetchCalls := 0
    parseCalls := 0 }

/-- The string a JavaScript template literal produces for the
`NodeClass` literal union values. -/
def NodeClass.toLiteral : NodeClass → String
  | .object => "Object"
  | .variable => "Variable"
  | .method => "Method"
  | .objectType => "ObjectType"
  | .variableType => "VariableType"
  | .referenceType => "ReferenceType"
  | .dataType => "DataType"
  | .view => "View"

/-- The string a JavaScript template literal produces for a boolean. -/
def boolToString (b : Bool) : String := if b then "true" else "false"

/-- The string a JavaScript template literal produces for an integral
number. -/
def intToString (i : Int) : String :=
  if i < 0 then "-" ++ Nat.repr i.natAbs else Nat.repr i.natAbs

/-- `renderNodeAsMarkdown` from `src/OpcUaDocs.ts`: heading, attribute
lines, optional description and type-specific fields (`dataType` is a
JavaScript truthiness test, so an empty string is skipped; the three
others are `!== undefined` tests), then the forward and inverse
reference sections. -/
def renderNodeAsMarkdown (entry : NodeGraphEntry) (node : ParsedUANode) : String :=
  let m1 := "# " ++ node.browseName ++ "\n\n"
  let m2 := m1 ++ "**NodeClass:** " ++ node.nodeClass.toLiteral ++ "\n"
  let m3 := m2 ++ "**NodeId:** " ++ node.nodeId.toString ++ "\n"
  let m4 := m3 ++ "**Browse Path:** " ++ entry.browsePath ++ "\n\n"
  let m5 := m4 ++ "**Display Name:** " ++ node.displayName.text ++ "\n\n"
  let m6 := match node.description with
    | none => m5
    | some desc => m5 ++ "**Description:**\n" ++ desc.text ++ "\n\n"
  let m7 := match node.dataType with
    | none => m6
    | some dt => if dt == "" then m6 else m6 ++ "**Data Type:** " ++ dt ++ "\n"
  let m8 := match node.valueRank with
    | none => m7
    | some vr => m7 ++ "**Value Rank:** " ++ intToString vr ++ "\n"
  let m9 := match node.isAbstract with
    | none => m8
    | some ab => m8 ++ "**Is Abstract:** " ++ boolToString ab ++ "\n"
  let m10 := match node.symmetric with
    | none => m9
    | some sy => m9 ++ "**Symmetric:** " ++ boolToString sy ++ "\n"
  let m11 :=
    if entry.forwardReferences.length > 0 then
      m10 ++ "\n## Forward References\n\n" ++
        String.join (entry.forwardReferences.map (fun refGroup =>
          "### " ++ refGroup.referenceType ++ "\n" ++
            String.join (refGroup.targets.map (fun targetId =>
              "- " ++ targetId ++ "\n")) ++ "\n"))
    else m10
  if entry.inverseReferences.length > 0 then
    m11 ++ "\n## Inverse References\n\n" ++
      String.join (entry.inverseReferences.map (fun refGroup =>
        "### " ++ refGroup.referenceType ++ "\n" ++
          String.join (refGroup.targets.map (fun sourceId =>
            "- " ++ sourceId ++ "\n")) ++ "\n"))
  else m11

/-- `NodeDocumentEntry` from `src/opcua/types.ts` (its `namespace` field
is renamed, `namespace` being reserved in Lean). -/
structure NodeDocumentEntry where
  id : Nat
  nodeId : String
  title : String
  description : Option String
  nodeClass : NodeClass
  namespaceStr : Option String
  node : ParsedUANode
deriving Repr

/-- The defect raised by the render cache lookup on an out-of-range
document id. -/
inductive RenderDefect where
  | undefinedDocAccess
deriving DecidableEq, Repr

/-- The `Cache.make` lookup in `src/OpcUaDocs.ts`: `docs[id]` is read
without a bounds check, so for an index outside `[0, docs.length)` the
JavaScript array yields `undefined` and the following `doc.nodeId`
access throws a `TypeError` — inside `Effect.gen` an unchecked defect,
modelled by the `Except.error` channel (the handler declares no typed
failure). In range, a graph miss yields the textual fallback and a hit
yields the rendered Markdown. -/
def renderLookup (docs : List NodeDocumentEntry)
    (graphGet : String → Option NodeGraphEntry) (id : Int) :
    Except RenderDefect String :=
  if 0 ≤ id then
    match docs.get? id.toNat with
    | none => Except.error RenderDefect.undefinedDocAccess
    | some doc =>
        match graphGet doc.nodeId with
        | none => Except.ok ("# " ++ doc.title ++ "\n\nNode not found in graph.")
        | some entry => Except.ok (renderNodeAsMarkdown entry doc.node)
  else Except.error RenderDefect.undefinedDocAccess

/-- A concrete search document whose node id no graph contains. -/
def demoDoc : NodeDocumentEntry :=
  { id := 0
    nodeId := "ns=0;numeric=1"
    title := "A (Object)"
    description := none
    nodeClass := NodeClass.object
    namespaceStr := none
    node := dupNode }

section JsMapLemmas

variable {α β : Type}

theorem jsHas_eq_true_iff (m : List (String × α)) (k : String) :
    jsHas m k = true ↔ k ∈ jsKeys m := by
  simp [jsHas, jsKeys, List.any_eq_true, List.mem_map]

theorem jsGet_eq_none_iff (m : List (String × α)) (k : String) :
    jsGet m k = none ↔ k ∉ jsKeys m := by
  rw [jsGet, Option.map_eq_none', List.find?_eq_none]
  simp only [beq_iff_eq, jsKeys, List.mem_map]
  constructor
  · rintro h ⟨p, hp, he⟩
    exact h p hp he
  · intro h p hp he
    exact h ⟨p, hp, he⟩

theorem jsGet_isSome_iff (m : List (String × α)) (k : String) :
    (jsGet m k).isSome ↔ k ∈ jsKeys m := by
  simp [Option.isSome_iff_ne_none, jsGet_eq_none_iff]

theorem find?_jsSetMap_self (m : List (String × α)) (k : String) (v : α) :
    (m.map (fun p => if p.1 == k then (k, v) else p)).find? (fun p => p.1 == k) =
      (m.find? (fun p => p.1 == k)).map (fun _ => (k, v)) := by
  induction m with
  | nil => rfl
  | cons q t ih =>
      rw [List.map_cons]
      by_cases hq : (q.1 == k) = true
      · rw [if_pos hq, List.find?_cons, List.find?_cons, hq]
        have hkv : ((k, v).1 == k) = true := by simp
        rw [hkv]
        rfl
      · have hq' : (q.1 == k) = false := by simpa using hq
        rw [if_neg hq, List.find?_cons, List.find?_cons, hq']
        exact ih

theorem find?_jsSetMap_ne (m : List (String × α)) {k k' : String} (v : α)
    (h : k' ≠ k) :
    (m.map (fun p => if p.1 == k then (k, v) else p)).find? (fun p => p.1 == k') =
      m.find? (fun p => p.1 == k') := by
  induction m with
  | nil => rfl
  | cons q t ih =>
      rw [List.map_cons]
      by_cases hq : (q.1 == k) = true
      · have hq' : (q.1 == k') = false := by
          rw [beq_eq_false_iff_ne, beq_iff_eq.mp hq]
          exact Ne.symm h
        have hkk : ((k, v).1 == k') = false := beq_eq_false_iff_ne.mpr (Ne.symm h)
        rw [if_pos hq, List.find?_cons, List.find?_cons, hq', hkk]
        exact ih
      · rw [if_neg hq, List.find?_cons, List.find?_cons]
        by_cases hq' : (q.1 == k') = true
        · rw [hq']
        · have hq'' : (q.1 == k') = false := by simpa using hq'
          rw [hq'']
          exact ih

theorem jsGet_jsSet_self (m : List (String × α)) (k : String) (v : α) :
    jsGet (jsSet m k v) k = some v := by
  by_cases h : jsHas m k = true
  · have hs : (m.find? (fun p => p.1 == k)).isSome := by
      rw [List.find?_isSome]
      simpa [jsHas, List.any_eq_true] using h
    rcases Option.isSome_iff_exists.mp hs with ⟨p, hp⟩
    rw [jsSet, if_pos h, jsGet, find?_jsSetMap_self, hp]
    rfl
  · rw [jsSet, if_neg h, jsGet, List.find?_append]
    have hn : m.find? (fun p => p.1 == k) = none := by
      rw [List.find?_eq_none]
      intro p hp hpk
      exact h (List.any_eq_true.mpr ⟨p, hp, hpk⟩)
    have hk : ((k, v).1 == k) = true := by simp
    rw [hn, List.find?_cons, hk]
    rfl

theorem jsGet_jsSet_ne (m : List (String × α)) {k k' : String} (v : α)
    (h : k' ≠ k) : jsGet (jsSet m k v) k' = jsGet m k' := by
  by_cases hk : jsHas m k = true
  · rw [jsSet, if_pos hk, jsGet, find?_jsSetMap_ne m v h, jsGet]
  · rw [jsSet, if_neg hk, jsGet, List.find?_append]
    have hkk : ((k, v).1 == k') = false := beq_eq_false_iff_ne.mpr (Ne.symm h)
    rw [List.find?_cons, hkk]
    show ((m.find? (fun p => p.1 == k')).or (List.find? (fun p => p.1 == k') [])).map
        (fun p => p.2) = jsGet m k'
    rw [List.find?_nil, Option.or_none, jsGet]

theorem jsKeys_jsSet_of_mem {m : List (String × α)} {k : String} (v : α)
    (h : k ∈ jsKeys m) : jsKeys (jsSet m k v) = jsKeys m := by
  rw [jsSet, if_pos ((jsHas_eq_true_iff m k).mpr h)]
  unfold jsKeys
  rw [List.map_map]
  refine List.map_congr_left ?_
  intro p _
  by_cases hp : (p.1 == k) = true
  · simp only [Function.comp, if_pos hp]
    exact (beq_iff_eq.mp hp).symm
  · simp only [Function.comp, if_neg hp]

theorem jsKeys_jsSet_of_not_mem {m : List (String × α)} {k : String} (v : α)
    (h : k ∉ jsKeys m) : jsKeys (jsSet m k v) = jsKeys m ++ [k] := by
  rw [jsSet, if_neg]
  · simp [jsKeys]
  · simp only [jsHas_eq_true_iff]
    exact h

theorem mem_jsKeys_jsSet {m : List (String × α)} {k k' : String} (v : α) :
    k ∈ jsKeys (jsSet m k' v) ↔ k ∈ jsKeys m ∨ k = k' := by
  by_cases h : k' ∈ jsKeys m
  · rw [jsKeys_jsSet_of_mem v h]
    exact ⟨Or.inl, fun hk => hk.elim id (fun he => he ▸ h)⟩
  · rw [jsKeys_jsSet_of_not_mem v h]
    simp

theorem jsKeys_nodup_jsSet {m : List (String × α)} {k : String} (v : α)
    (h : (jsKeys m).Nodup) : (jsKeys (jsSet m k v)).Nodup := by
  by_cases hk : k ∈ jsKeys m
  · rw [jsKeys_jsSet_of_mem v hk]; exact h
  · rw [jsKeys_jsSet_of_not_mem v hk]
    simpa [List.nodup_append] using ⟨h, hk⟩

theorem jsGet_of_mem_of_nodup {m : List (String × α)} {p : String × α}
    (hnd : (jsKeys m).Nodup) (hp : p ∈ m) : jsGet m p.1 = some p.2 := by
  induction m with
  | nil => cases hp
  | cons q t ih =>
      have hndc : (q.1 :: jsKeys t).Nodup := hnd
      have hnd0 := List.nodup_cons.mp hndc
      rcases List.mem_cons.mp hp with rfl | hpt
      · have hself : (p.1 == p.1) = true := by simp
        rw [jsGet, List.find?_cons, hself]
        rfl
      · have hq : (q.1 == p.1) = false := by
          simp only [beq_eq_false_iff_ne, ne_eq]
          intro he
          exact hnd0.1 (he ▸ List.mem_map.mpr ⟨p, hpt, rfl⟩)
        rw [jsGet, List.find?_cons, hq, ← jsGet]
        exact ih hnd0.2 hpt

theorem jsGet_mapVal (m : List (String × α)) (f : α → β) (k : String) :
    jsGet (m.map (fun p => (p.1, f p.2))) k = (jsGet m k).map f := by
  rw [jsGet, List.find?_map]
  have hc : ((fun p : String × β => p.1 == k) ∘ (fun p : String × α => (p.1, f p.2))) =
      (fun p : String × α => p.1 == k) := rfl
  rw [hc, jsGet]
  cases m.find? (fun p : String × α => p.1 == k) <;> rfl

theorem jsValues_length (m : List (String × α)) :
    (jsValues m).length = m.length := by
  simp [jsValues]

theorem jsKeys_length (m : List (String × α)) :
    (jsKeys m).length = m.length := by
  simp [jsKeys]

end JsMapLemmas

theorem jsKeys_mapPair {β : Type} (m : List (String × α)) (f : String × α → β) :
    jsKeys (m.map (fun p => (p.1, f p))) = jsKeys m := by
  simp [jsKeys, List.map_map]

/-- One step of the second or third pass: look the visited key up in the
live map and replace its entry. -/
theorem NodeGraph.step_eq_map
    (u : List (String × NodeGraphEntry) → String → NodeGraphEntry → NodeGraphEntry)
    (m : List (String × NodeGraphEntry)) (k : String)
    (hnd : (jsKeys m).Nodup) :
    (match jsGet m k with
      | none => m
      | some e => jsSet m k (u m k e)) =
      m.map (fun p => if p.1 = k then (p.1, u m p.1 p.2) else p) := by
  cases hget : jsGet m k with
  | none =>
      have hkm : k ∉ jsKeys m := (jsGet_eq_none_iff m k).mp hget
      have hid : ∀ p ∈ m, (if p.1 = k then (p.1, u m p.1 p.2) else p) = p := by
        intro p hp
        refine if_neg (fun he => hkm ?_)
        exact he ▸ List.mem_map.mpr ⟨p, hp, rfl⟩
      rw [List.map_congr_left hid, List.map_id']
  | some e =>
      have hkm : k ∈ jsKeys m := by
        have : (jsGet m k).isSome := by rw [hget]; rfl
        exact (jsGet_isSome_iff m k).mp this
      show jsSet m k (u m k e) = _
      rw [jsSet, if_pos ((jsHas_eq_true_iff m k).mpr hkm)]
      refine List.map_congr_left ?_
      intro p hp
      by_cases hpk : p.1 = k
      · have hbeq : (p.1 == k) = true := beq_iff_eq.mpr hpk
        have hpe : p.2 = e := by
          have := jsGet_of_mem_of_nodup hnd hp
          rw [hpk, hget] at this
          exact (Option.some_inj.mp this).symm
        rw [if_pos hbeq, if_pos hpk, hpk, hpe]
      · have hbeq : (p.1 == k) = false := beq_eq_false_iff_ne.mpr hpk
        rw [if_neg (by simp [hbeq]), if_neg hpk]

/-- The generic shape of the second and third passes of `buildGraph`: a
fold over the (distinct) keys of the map, each step replacing the visited
entry with a value computed from the live map, where the computation
reads the live map only through its key-to-node projection. -/
theorem NodeGraph.foldKeys_eq_map
    (u : List (String × NodeGraphEntry) → String → NodeGraphEntry → NodeGraphEntry)
    (hnode : ∀ m k e, (u m k e).node = e.node)
    (hview : ∀ m m', NodeGraph.nodesOf m = NodeGraph.nodesOf m' →
      ∀ k e, u m k e = u m' k e) :
    ∀ (ks : List String) (m : List (String × NodeGraphEntry)),
      ks.Nodup → (jsKeys m).Nodup →
      ks.foldl
          (fun m k =>
            match jsGet m k with
            | none => m
            | some e => jsSet m k (u m k e)) m =
        m.map (fun p => if p.1 ∈ ks then (p.1, u m p.1 p.2) else p) := by
  intro ks
  induction ks with
  | nil =>
      intro m _ _
      simp
  | cons k ks ih =>
      intro m hks hm
      have hk : k ∉ ks := (List.nodup_cons.mp hks).1
      have hks' : ks.Nodup := (List.nodup_cons.mp hks).2
      rw [List.foldl_cons]
      have hstep := NodeGraph.step_eq_map u m k hm
      have hkeys : jsKeys (match jsGet m k with
          | none => m
          | some e => jsSet m k (u m k e)) = jsKeys m := by
        rw [hstep]
        have : (fun p : String × NodeGraphEntry =>
            if p.1 = k then (p.1, u m p.1 p.2) else p) =
            (fun p : String × NodeGraphEntry =>
              (p.1, if p.1 = k then u m p.1 p.2 else p.2)) := by
          funext p
          by_cases hpk : p.1 = k
          · rw [if_pos hpk, if_pos hpk]
          · rw [if_neg hpk, if_neg hpk]
        rw [this, jsKeys_mapPair]
      have hnodes : NodeGraph.nodesOf (match jsGet m k with
          | none => m
          | some e => jsSet m k (u m k e)) = NodeGraph.nodesOf m := by
        rw [hstep]
        unfold NodeGraph.nodesOf
        rw [List.map_map]
        refine List.map_congr_left ?_
        intro p _
        by_cases hpk : p.1 = k
        · simp only [Function.comp, if_pos hpk, hnode]
        · simp only [Function.comp, if_neg hpk]
      rw [ih _ hks' (hkeys ▸ hm)]
      have hrw : ∀ q ∈ (match jsGet m k with
          | none => m
          | some e => jsSet m k (u m k e)),
          (if q.1 ∈ ks then (q.1,
              u (match jsGet m k with
                | none => m
                | some e => jsSet m k (u m k e)) q.1 q.2) else q) =
            (if q.1 ∈ ks then (q.1, u m q.1 q.2) else q) := by
        intro q _
        by_cases hq : q.1 ∈ ks
        · rw [if_pos hq, if_pos hq, hview _ m hnodes]
        · rw [if_neg hq, if_neg hq]
      rw [List.map_congr_left hrw, hstep, List.map_map]
      refine List.map_congr_left ?_
      intro p _
      by_cases hpk : p.1 = k
      · have h1 : p.1 ∈ k :: ks := by rw [hpk]; exact List.mem_cons_self k ks
        have h2 : p.1 ∉ ks := hpk ▸ hk
        simp only [Function.comp, if_pos hpk, if_neg h2, if_pos h1]
      · have h3 : (p.1 ∈ k :: ks) ↔ (p.1 ∈ ks) := by
          rw [List.mem_cons]
          exact ⟨fun h => h.elim (fun he => absurd he hpk) id, Or.inr⟩
        by_cases hq : p.1 ∈ ks
        · simp only [Function.comp, if_neg hpk, if_pos hq, if_pos (h3.mpr hq)]
        · simp only [Function.comp, if_neg hpk, if_neg hq, if_neg (fun h => hq (h3.mp h))]

theorem mem_jsKeys_of_mem {α : Type} {m : List (String × α)} {p : String × α}
    (hp : p ∈ m) : p.1 ∈ jsKeys m :=
  List.mem_map.mpr ⟨p, hp, rfl⟩

theorem NodeGraph.browsePathOf_congr {m m' : List (String × NodeGraphEntry)}
    (h : NodeGraph.nodesOf m = NodeGraph.nodesOf m') (node : ParsedUANode) :
    NodeGraph.browsePathOf m node = NodeGraph.browsePathOf m' node := by
  unfold NodeGraph.browsePathOf
  cases NodeGraph.parentRefs node with
  | nil => rfl
  | cons r tl =>
      show (match jsGet m r.targetNodeId.toString with
          | none => node.browseName
          | some parentEntry =>
              parentEntry.node.browseName ++ "/" ++ node.browseName) =
        (match jsGet m' r.targetNodeId.toString with
          | none => node.browseName
          | some parentEntry =>
              parentEntry.node.browseName ++ "/" ++ node.browseName)
      have hg : (jsGet m r.targetNodeId.toString).map (fun e => e.node) =
          (jsGet m' r.targetNodeId.toString).map (fun e => e.node) := by
        rw [← jsGet_mapVal, ← jsGet_mapVal]
        show jsGet (NodeGraph.nodesOf m) _ = jsGet (NodeGraph.nodesOf m') _
        rw [h]
      cases hm : jsGet m r.targetNodeId.toString with
      | none =>
          cases hm' : jsGet m' r.targetNodeId.toString with
          | none => rfl
          | some pe' => rw [hm, hm'] at hg; cases hg
      | some pe =>
          cases hm' : jsGet m' r.targetNodeId.toString with
          | none => rw [hm, hm'] at hg; cases hg
          | some pe' =>
              rw [hm, hm'] at hg
              have hpe : pe.node = pe'.node := by
                simpa using hg
              show pe.node.browseName ++ "/" ++ node.browseName = _
              rw [hpe]

theorem NodeGraph.pass2_eq_map (nodes : List ParsedUANode)
    (m0 : List (String × NodeGraphEntry)) (h : (jsKeys m0).Nodup) :
    NodeGraph.pass2 nodes m0 =
      m0.map (fun p =>
        (p.1, { p.2 with
          inverseReferences := toGroups (NodeGraph.inverseRefsFor nodes p.1) })) := by
  have hfold := NodeGraph.foldKeys_eq_map
    (fun _ k e => { e with inverseReferences := toGroups (NodeGraph.inverseRefsFor nodes k) })
    (fun _ _ _ => rfl)
    (fun _ _ _ _ _ => rfl)
    (jsKeys m0) m0 h h
  refine (hfold.trans ?_)
  refine List.map_congr_left ?_
  intro p hp
  rw [if_pos (mem_jsKeys_of_mem hp)]

theorem NodeGraph.pass3_eq_map (m0 : List (String × NodeGraphEntry))
    (h : (jsKeys m0).Nodup) :
    NodeGraph.pass3 m0 =
      m0.map (fun p => (p.1, NodeGraph.pass3Val m0 p.2)) := by
  have hfold := NodeGraph.foldKeys_eq_map
    (fun m _ e => { e with browsePath := NodeGraph.browsePathOf m e.node })
    (fun _ _ _ => rfl)
    (fun m m' hmm _ e => by
      show ({ e with browsePath := NodeGraph.browsePathOf m e.node } : NodeGraphEntry) =
        { e with browsePath := NodeGraph.browsePathOf m' e.node }
      rw [NodeGraph.browsePathOf_congr hmm])
    (jsKeys m0) m0 h h
  refine (hfold.trans ?_)
  refine List.map_congr_left ?_
  intro p hp
  rw [if_pos (mem_jsKeys_of_mem hp)]
  rfl

theorem NodeGraph.pass1_go_nodup (nodes : List ParsedUANode) :
    ∀ m : List (String × NodeGraphEntry), (jsKeys m).Nodup →
      (jsKeys (nodes.foldl
        (fun m node => jsSet m node.nodeId.toString (NodeGraph.initialEntry node))
        m)).Nodup := by
  induction nodes with
  | nil => intro m h; exact h
  | cons n t ih =>
      intro m h
      exact ih _ (jsKeys_nodup_jsSet _ h)

theorem NodeGraph.pass1_keys_nodup (nodes : List ParsedUANode) :
    (jsKeys (NodeGraph.pass1 nodes)).Nodup :=
  NodeGraph.pass1_go_nodup nodes [] List.nodup_nil

theorem NodeGraph.pass1_go_mem (nodes : List ParsedUANode) :
    ∀ (m : List (String × NodeGraphEntry)) (k : String),
      k ∈ jsKeys (nodes.foldl
          (fun m node => jsSet m node.nodeId.toString (NodeGraph.initialEntry node))
          m) ↔
        k ∈ jsKeys m ∨ ∃ n ∈ nodes, n.nodeId.toString = k := by
  induction nodes with
  | nil =>
      intro m k
      simp
  | cons n t ih =>
      intro m k
      rw [List.foldl_cons, ih, mem_jsKeys_jsSet]
      constructor
      · rintro ((hm | he) | ⟨n', hn', he'⟩)
        · exact Or.inl hm
        · exact Or.inr ⟨n, List.mem_cons_self n t, he.symm⟩
        · exact Or.inr ⟨n', List.mem_cons_of_mem n hn', he'⟩
      · rintro (hm | ⟨n', hn', he'⟩)
        · exact Or.inl (Or.inl hm)
        · rcases List.mem_cons.mp hn' with rfl | hn''
          · exact Or.inl (Or.inr he'.symm)
          · exact Or.inr ⟨n', hn'', he'⟩

theorem NodeGraph.pass1_mem_keys (nodes : List ParsedUANode) (k : String) :
    k ∈ jsKeys (NodeGraph.pass1 nodes) ↔
      ∃ n ∈ nodes, n.nodeId.toString = k := by
  rw [NodeGraph.pass1, NodeGraph.pass1_go_mem]
  simp [jsKeys]

theorem NodeGraph.browsePathOf_eq_nil {m : List (String × NodeGraphEntry)}
    {node : ParsedUANode} (hpr : NodeGraph.parentRefs node = []) :
    NodeGraph.browsePathOf m node = node.browseName := by
  unfold NodeGraph.browsePathOf
  rw [hpr]

theorem NodeGraph.browsePathOf_eq_cons_none {m : List (String × NodeGraphEntry)}
    {node : ParsedUANode} {r : Reference} {tl : List Reference}
    (hpr : NodeGraph.parentRefs node = r :: tl)
    (hpe : jsGet m r.targetNodeId.toString = none) :
    NodeGraph.browsePathOf m node = node.browseName := by
  unfold NodeGraph.browsePathOf
  rw [hpr]
  show (match jsGet m r.targetNodeId.toString with
    | none => node.browseName
    | some parentEntry => parentEntry.node.browseName ++ "/" ++ node.browseName) = _
  rw [hpe]

theorem NodeGraph.browsePathOf_eq_cons_some {m : List (String × NodeGraphEntry)}
    {node : ParsedUANode} {r : Reference} {tl : List Reference} {pe : NodeGraphEntry}
    (hpr : NodeGraph.parentRefs node = r :: tl)
    (hpe : jsGet m r.targetNodeId.toString = some pe) :
    NodeGraph.browsePathOf m node = pe.node.browseName ++ "/" ++ node.browseName := by
  unfold NodeGraph.browsePathOf
  rw [hpr]
  show (match jsGet m r.targetNodeId.toString with
    | none => node.browseName
    | some parentEntry => parentEntry.node.browseName ++ "/" ++ node.browseName) = _
  rw [hpe]

theorem NodeGraph.nodesOf_mapVal (m : List (String × NodeGraphEntry))
    (f : NodeGraphEntry → NodeGraphEntry) (hf : ∀ e, (f e).node = e.node) :
    NodeGraph.nodesOf (m.map (fun p => (p.1, f p.2))) = NodeGraph.nodesOf m := by
  unfold NodeGraph.nodesOf
  rw [List.map_map]
  refine List.map_congr_left ?_
  intro p _
  simp only [Function.comp, hf]

theorem NodeGraph.pass2_keys_nodup (nodes : List ParsedUANode) :
    (jsKeys (NodeGraph.pass2 nodes (NodeGraph.pass1 nodes))).Nodup := by
  rw [NodeGraph.pass2_eq_map _ _ (NodeGraph.pass1_keys_nodup nodes), jsKeys_mapPair]
  exact NodeGraph.pass1_keys_nodup nodes

theorem NodeGraph.buildGraph_keys (nodes : List ParsedUANode) :
    jsKeys (NodeGraph.buildGraph nodes) = jsKeys (NodeGraph.pass1 nodes) := by
  unfold NodeGraph.buildGraph
  rw [NodeGraph.pass3_eq_map _ (NodeGraph.pass2_keys_nodup nodes), jsKeys_mapPair,
    NodeGraph.pass2_eq_map _ _ (NodeGraph.pass1_keys_nodup nodes), jsKeys_mapPair]

theorem length_eq_dedup_length {l keys : List String} (hnd : keys.Nodup)
    (hmem : ∀ k, k ∈ keys ↔ k ∈ l) : keys.length = l.dedup.length := by
  rw [← List.toFinset_card_of_nodup hnd, ← List.toFinset_card_of_nodup l.nodup_dedup]
  congr 1
  ext a
  simp only [List.mem_toFinset, List.mem_dedup]
  exact hmem a

/-- Claim C1, counterexample: on the scenario document the graph index is
keyed by `NodeId.toString`, which lowercases the identifier-type literal
(`ns=0;numeric=100`), so the lookup key `ns=0;i=100` asserted by the
claim finds nothing; and `SerialNumber` declares no inverse reference of
its own, so its browse path stays `SerialNumber`, not
`Motor1/SerialNumber`. -/
theorem C1_counterexample :
    NodeGraph.getNode (NodeGraph.buildGraph motorDoc) ("ns=0;i=100") = none ∧
    (NodeGraph.getNode (NodeGraph.buildGraph motorDoc) ("ns=0;numeric=101")).map
      (fun e => e.browsePath) = some ("SerialNumber") := by
  decide

/-- Claim C1 (amended): with the code's canonical keys
`ns=0;numeric=100` / `ns=0;numeric=101`, the built graph has two entries;
`Motor1` carries the single forward group
`HasComponent ↦ [ns=0;numeric=101]`; `SerialNumber` carries the single
derived inverse group `HasComponent ↦ [ns=0;numeric=100]`; and because
the third pass reads only the node's own declared non-forward references
(and `SerialNumber` declares none), its browse path is `SerialNumber`. -/
theorem C1_amended :
    (NodeGraph.getAllNodes (NodeGraph.buildGraph motorDoc)).length = 2 ∧
    (NodeGraph.getNode (NodeGraph.buildGraph motorDoc) ("ns=0;numeric=100")).map
      (fun e => e.forwardReferences) =
      some [{ referenceType := "HasComponent", targets := ["ns=0;numeric=101"] }] ∧
    (NodeGraph.getNode (NodeGraph.buildGraph motorDoc) ("ns=0;numeric=100")).map
      (fun e => e.inverseReferences) = some [] ∧
    (NodeGraph.getNode (NodeGraph.buildGraph motorDoc) ("ns=0;numeric=101")).map
      (fun e => e.inverseReferences) =
      some [{ referenceType := "HasComponent", targets := ["ns=0;numeric=100"] }] ∧
    (NodeGraph.getNode (NodeGraph.buildGraph motorDoc) ("ns=0;numeric=101")).map
      (fun e => e.browsePath) = some ("SerialNumber") := by
  decide

/-- Claim C2, counterexample: a document whose two nodes share one
identifier yields one graph entry, not `len(D.nodes) = 2` entries. -/
theorem C2_counterexample :
    ([dupNode, dupNode] : List ParsedUANode).length = 2 ∧
    (NodeGraph.getAllNodes (NodeGraph.buildGraph [dupNode, dupNode])).length = 1 := by
  decide

/-- Claim C2 (amended): after `buildGraph`, `getAllNodes` has exactly one
entry per distinct canonical node identifier of the input (not one per
input node), and every node identifier present in the input has an
entry. -/
theorem C2_theorem (nodes : List ParsedUANode) :
    (NodeGraph.getAllNodes (NodeGraph.buildGraph nodes)).length =
      ((nodes.map (fun n => n.nodeId.toString)).dedup).length ∧
    ∀ n ∈ nodes,
      ∃ e, NodeGraph.getNode (NodeGraph.buildGraph nodes) n.nodeId.toString = some e := by
  have hkeys := NodeGraph.buildGraph_keys nodes
  have hnd : (jsKeys (NodeGraph.buildGraph nodes)).Nodup := by
    rw [hkeys]; exact NodeGraph.pass1_keys_nodup nodes
  constructor
  · have hmem : ∀ k, k ∈ jsKeys (NodeGraph.buildGraph nodes) ↔
        k ∈ nodes.map (fun n => n.nodeId.toString) := by
      intro k
      rw [hkeys, NodeGraph.pass1_mem_keys]
      simp [List.mem_map]
    calc (NodeGraph.getAllNodes (NodeGraph.buildGraph nodes)).length
        = (NodeGraph.buildGraph nodes).length := jsValues_length _
      _ = (jsKeys (NodeGraph.buildGraph nodes)).length := (jsKeys_length _).symm
      _ = _ := length_eq_dedup_length hnd hmem
  · intro n hn
    have hk : n.nodeId.toString ∈ jsKeys (NodeGraph.buildGraph nodes) := by
      rw [hkeys, NodeGraph.pass1_mem_keys]
      exact ⟨n, hn, rfl⟩
    exact Option.isSome_iff_exists.mp ((jsGet_isSome_iff _ _).mpr hk)

/-- Claim C2 witness: the theorem applied to the two-node scenario
document. -/
theorem C2_witness :
    (NodeGraph.getAllNodes (NodeGraph.buildGraph motorDoc)).length =
      ((motorDoc.map (fun n => n.nodeId.toString)).dedup).length ∧
    ∃ e, NodeGraph.getNode (NodeGraph.buildGraph motorDoc)
      motorNode.nodeId.toString = some e :=
  ⟨(C2_theorem motorDoc).1,
    (C2_theorem motorDoc).2 motorNode (List.mem_cons_self motorNode [serialNode])⟩

/-- Claim C7, counterexample: in the chain `A ← B ← C` the parent `B`
resolves to browse path `A/B`, but `C` gets `B/C` — the third pass
prefixes the parent's `browseName`, not the parent's already-resolved
browse path `A/B` (which would give `A/B/C`). -/
theorem C7_counterexample :
    (NodeGraph.getNode (NodeGraph.buildGraph chainNodes) ("ns=0;numeric=2")).map
      (fun e => e.browsePath) = some ("A/B") ∧
    (NodeGraph.getNode (NodeGraph.buildGraph chainNodes) ("ns=0;numeric=3")).map
      (fun e => e.browsePath) = some ("B/C") ∧
    ("B/C" : String) ≠ "A/B" ++ "/" ++ "C" := by
  decide

/-- Claim C7 (amended): in the `src/opcua/NodeGraph.ts` third pass, a
node whose first qualifying declared non-forward reference targets a
node present in the graph gets `browsePath` equal to that parent NODE's
`browseName` (not its resolved browse path) followed by `/` and the
node's own `browseName`; a node whose first qualifying reference targets
an absent identifier, or with no qualifying reference at all, keeps
`browsePath = browseName`. -/
theorem C7_theorem (nodes : List ParsedUANode) (k : String) (e : NodeGraphEntry)
    (h : NodeGraph.getNode (NodeGraph.buildGraph nodes) k = some e) :
    (match NodeGraph.parentRefs e.node with
     | [] => e.browsePath = e.node.browseName
     | r :: _ =>
         match NodeGraph.getNode (NodeGraph.buildGraph nodes) r.targetNodeId.toString with
         | none => e.browsePath = e.node.browseName
         | some pe => e.browsePath = pe.node.browseName ++ "/" ++ e.node.browseName) := by
  have h2nd := NodeGraph.pass2_keys_nodup nodes
  have hbg : NodeGraph.buildGraph nodes =
      (NodeGraph.pass2 nodes (NodeGraph.pass1 nodes)).map
        (fun p => (p.1,
          NodeGraph.pass3Val (NodeGraph.pass2 nodes (NodeGraph.pass1 nodes)) p.2)) :=
    NodeGraph.pass3_eq_map (NodeGraph.pass2 nodes (NodeGraph.pass1 nodes)) h2nd
  have hget : NodeGraph.getNode (NodeGraph.buildGraph nodes) k =
      (jsGet (NodeGraph.pass2 nodes (NodeGraph.pass1 nodes)) k).map
        (NodeGraph.pass3Val (NodeGraph.pass2 nodes (NodeGraph.pass1 nodes))) := by
    rw [NodeGraph.getNode, hbg]
    exact jsGet_mapVal _ _ _
  rw [hget] at h
  rcases Option.map_eq_some'.mp h with ⟨e2, he2, hfe⟩
  have hnodes : NodeGraph.nodesOf (NodeGraph.buildGraph nodes) =
      NodeGraph.nodesOf (NodeGraph.pass2 nodes (NodeGraph.pass1 nodes)) := by
    rw [hbg]
    exact NodeGraph.nodesOf_mapVal _ _ (fun _ => rfl)
  have hbp : e.browsePath =
      NodeGraph.browsePathOf (NodeGraph.buildGraph nodes) e.node := by
    rw [← hfe]
    show NodeGraph.browsePathOf (NodeGraph.pass2 nodes (NodeGraph.pass1 nodes)) e2.node =
      NodeGraph.browsePathOf (NodeGraph.buildGraph nodes)
        (NodeGraph.pass3Val (NodeGraph.pass2 nodes (NodeGraph.pass1 nodes)) e2).node
    exact (NodeGraph.browsePathOf_congr hnodes e2.node).symm
  cases hpr : NodeGraph.parentRefs e.node with
  | nil =>
      show e.browsePath = e.node.browseName
      rw [hbp]
      exact NodeGraph.browsePathOf_eq_nil hpr
  | cons r tl =>
      show (match NodeGraph.getNode (NodeGraph.buildGraph nodes) r.targetNodeId.toString with
        | none => e.browsePath = e.node.browseName
        | some pe => e.browsePath = pe.node.browseName ++ "/" ++ e.node.browseName)
      cases hpe : NodeGraph.getNode (NodeGraph.buildGraph nodes) r.targetNodeId.toString with
      | none =>
          show e.browsePath = e.node.browseName
          rw [hbp]
          exact NodeGraph.browsePathOf_eq_cons_none hpr hpe
      | some pe =>
          show e.browsePath = pe.node.browseName ++ "/" ++ e.node.browseName
          rw [hbp]
          exact NodeGraph.browsePathOf_eq_cons_some hpr hpe

/-- Claim C7 witness: the characterization applied to a one-node
document, whose node has no qualifying parent reference. -/
theorem C7_witness : aFinalEntry.browsePath = aFinalEntry.node.browseName :=
  C7_theorem [dupNode] ("ns=0;numeric=1") aFinalEntry (by decide)

/-- Claim C6, counterexample: merging two documents that both declare the
uri `http://a/` leaves that uri twice in the merged namespace list — the
loader's merge performs no de-duplication by uri. -/
theorem C6_counterexample :
    ((mergeNodeSets [nsDocA, nsDocA]).namespaces.filter
      (fun ns => ns.uri == "http://a/")).length = 2 := by
  decide

theorem length_filter_flatMap {α : Type} (l : List α) (f : α → List NamespaceMetadata)
    (p : NamespaceMetadata → Bool) :
    ((l.flatMap f).filter p).length =
      (l.map (fun x => ((f x).filter p).length)).sum := by
  induction l with
  | nil => rfl
  | cons x t ih =>
      rw [List.flatMap_cons, List.filter_append, List.length_append, ih,
        List.map_cons, List.sum_cons]

/-- Claim C6 (amended): `mergeNodeSets` concatenates node lists in the
order the documents were supplied and concatenates namespace lists
without de-duplication — a uri declared by several input documents
appears once per declaration, not exactly once. -/
theorem C6_theorem (nodeSets : List NodeSet) :
    (mergeNodeSets nodeSets).nodes = nodeSets.flatMap (fun ns => ns.nodes) ∧
    (mergeNodeSets nodeSets).namespaces =
      nodeSets.flatMap (fun ns => ns.namespaces) ∧
    ∀ u : String,
      ((mergeNodeSets nodeSets).namespaces.filter (fun ns => ns.uri == u)).length =
        (nodeSets.map
          (fun ns => (ns.namespaces.filter (fun x => x.uri == u)).length)).sum := by
  refine ⟨rfl, rfl, ?_⟩
  intro u
  exact length_filter_flatMap nodeSets (fun ns => ns.namespaces) (fun x => x.uri == u)

/-- Claim C8: the earlier loader's `getNodeClass` tests the substring
`"Object"` before `"ObjectType"` and `"Variable"` before
`"VariableType"`, so the `UAObjectType` and `UAVariableType` sections are
misclassified as `Object` and `Variable`; the catalog-driven loader's
variant tests the `...Type` substrings first and maps every one of the
eight section tags to the class the specification asserts. -/
theorem C8_theorem :
    NodeSetLoader.getNodeClass ("UAObjectType") = NodeClass.object ∧
    NodeSetLoader.getNodeClass ("UAVariableType") = NodeClass.variable ∧
    specSectionClass ("UAObjectType") = some NodeClass.objectType ∧
    NodeSetLoaderSource.getNodeClass ("UAObject") = NodeClass.object ∧
    NodeSetLoaderSource.getNodeClass ("UAVariable") = NodeClass.variable ∧
    NodeSetLoaderSource.getNodeClass ("UAMethod") = NodeClass.method ∧
    NodeSetLoaderSource.getNodeClass ("UAObjectType") = NodeClass.objectType ∧
    NodeSetLoaderSource.getNodeClass ("UAVariableType") = NodeClass.variableType ∧
    NodeSetLoaderSource.getNodeClass ("UAReferenceType") = NodeClass.referenceType ∧
    NodeSetLoaderSource.getNodeClass ("UADataType") = NodeClass.dataType ∧
    NodeSetLoaderSource.getNodeClass ("UAView") = NodeClass.view := by
  decide

theorem intercalate_cons_cons {α : Type} (sep a b : List α) (tl : List (List α)) :
    List.intercalate sep (a :: b :: tl) = a ++ sep ++ List.intercalate sep (b :: tl) := by
  simp [List.intercalate, List.intersperse_cons_cons]

theorem intercalate_singleton_list {α : Type} (sep a : List α) :
    List.intercalate sep [a] = a := by
  simp [List.intercalate, List.intersperse_singleton]

theorem intercalate_append_ne_nil {α : Type} (sep : List α) :
    ∀ (l₁ l₂ : List (List α)), l₁ ≠ [] → l₂ ≠ [] →
      List.intercalate sep (l₁ ++ l₂) =
        List.intercalate sep l₁ ++ sep ++ List.intercalate sep l₂ := by
  intro l₁
  induction l₁ with
  | nil => intro l₂ h _; cases h rfl
  | cons a t ih =>
      intro l₂ _ h₂
      cases t with
      | nil =>
          cases l₂ with
          | nil => cases h₂ rfl
          | cons b t₂ =>
              rw [List.singleton_append, intercalate_cons_cons,
                intercalate_singleton_list]
      | cons b t' =>
          rw [List.cons_append, List.cons_append, intercalate_cons_cons,
            intercalate_cons_cons, ← List.cons_append,
            ih l₂ (by simp) h₂]
          simp [List.append_assoc]

theorem intercalate_map_intercalate {α : Type} (sep : List α) :
    ∀ (L : List (List (List α))), (∀ x ∈ L, x ≠ []) →
      List.intercalate sep (L.map (List.intercalate sep)) =
        List.intercalate sep L.flatten := by
  intro L
  induction L with
  | nil => intro _; rfl
  | cons x t ih =>
      intro hne
      cases t with
      | nil =>
          rw [List.map_cons, List.map_nil, intercalate_singleton_list,
            List.flatten_cons, List.flatten_nil, List.append_nil]
      | cons y t' =>
          have hx : x ≠ [] := hne x (List.mem_cons_self x _)
          have hflat : (y :: t').flatten ≠ [] := by
            have hy : y ≠ [] := hne y (List.mem_cons_of_mem x (List.mem_cons_self y _))
            simp only [List.flatten_cons]
            intro hcon
            exact hy (List.append_eq_nil.mp hcon).1
          rw [List.map_cons, List.map_cons, intercalate_cons_cons,
            ← List.map_cons, ih (fun z hz => hne z (List.mem_cons_of_mem x hz))]
          conv_rhs => rw [List.flatten_cons]
          rw [intercalate_append_ne_nil sep x (y :: t').flatten hx hflat]

theorem chunks_flatten {α : Type} (k : Nat) (hk : 0 < k) :
    ∀ (n : Nat) (l : List α), l.length = n →
      ((List.range ((l.length + k - 1) / k)).map
        (fun i => (l.drop (i * k)).take k)).flatten = l := by
  intro n
  induction n using Nat.strong_induction_on with
  | _ n ih =>
      intro l hn
      cases l with
      | nil =>
          rw [List.length_nil, Nat.zero_add, Nat.div_eq_of_lt (Nat.sub_lt hk Nat.one_pos)]
          rfl
      | cons a t =>
          have hlen : 0 < (a :: t).length := Nat.succ_pos _
          have hpages : ((a :: t).length + k - 1) / k =
              (((a :: t).length - 1) / k) + 1 := by
            have h1 : (a :: t).length + k - 1 = ((a :: t).length - 1) + k := by omega
            rw [h1, Nat.add_div_right _ hk]
          have hpages2 : (((a :: t).drop k).length + k - 1) / k =
              ((a :: t).length - 1) / k := by
            rw [List.length_drop]
            by_cases hc : k ≤ (a :: t).length
            · congr 1
              omega
            · have h0 : (a :: t).length - k = 0 := by omega
              rw [h0, Nat.zero_add, Nat.div_eq_of_lt (Nat.sub_lt hk Nat.one_pos),
                Nat.div_eq_of_lt (by omega)]
          have hrec := ih ((a :: t).drop k).length
            (by rw [List.length_drop]; omega)
            ((a :: t).drop k) rfl
          rw [hpages2] at hrec
          have hcomp : ∀ i : Nat,
              (((a :: t).drop k).drop (i * k)).take k =
              ((a :: t).drop ((i + 1) * k)).take k := by
            intro i
            rw [List.drop_drop, Nat.add_mul, Nat.one_mul, Nat.add_comm]
          rw [hpages, List.range_succ_eq_map, List.map_cons, List.flatten_cons,
            Nat.zero_mul, List.drop_zero, List.map_map]
          have hmapeq : (List.range (((a :: t).length - 1) / k)).map
              ((fun i => ((a :: t).drop (i * k)).take k) ∘ Nat.succ) =
              (List.range (((a :: t).length - 1) / k)).map
                (fun i => (((a :: t).drop k).drop (i * k)).take k) := by
            refine List.map_congr_left ?_
            intro i _
            show ((a :: t).drop ((i + 1) * k)).take k = _
            rw [hcomp i]
          rw [hmapeq, hrec, List.take_append_drop]

theorem chunk_ne_nil {α : Type} (k : Nat) (hk : 0 < k) (l : List α) (i : Nat)
    (hi : i < (l.length + k - 1) / k) : (l.drop (i * k)).take k ≠ [] := by
  have hn : 0 < l.length := by
    by_contra h0
    have : l.length = 0 := by omega
    rw [this, Nat.zero_add, Nat.div_eq_of_lt (Nat.sub_lt hk Nat.one_pos)] at hi
    omega
  have hik : i * k < l.length := by
    have h1 : (l.length + k - 1) / k = ((l.length - 1) / k) + 1 := by
      have he : l.length + k - 1 = (l.length - 1) + k := by omega
      rw [he, Nat.add_div_right _ hk]
    rw [h1] at hi
    have h2 : i ≤ (l.length - 1) / k := by omega
    have h3 : i * k ≤ ((l.length - 1) / k) * k :=
      Nat.mul_le_mul_right k h2
    have h4 : ((l.length - 1) / k) * k ≤ l.length - 1 := Nat.div_mul_le_self _ _
    omega
  intro hcon
  rcases List.take_eq_nil_iff.mp hcon with h | h
  · omega
  · rw [List.drop_eq_nil_iff] at h
    omega

/-- Claim C3 (amended): joining the per-page contents of
`get_opcua_doc` for pages `1..totalPages` with a newline separator
between consecutive pages reproduces the full rendered text exactly; the
pages partition the line sequence with no loss or duplication. Plain
string concatenation of the page contents drops the newline at each page
boundary (see the counterexample). -/
theorem C3_theorem (content : List Char) :
    List.intercalate ['\n']
      ((List.range (getOpcUaDoc content 1).totalPages).map
        (fun i => (getOpcUaDoc content (i + 1)).content)) = content := by
  have hk : 0 < pageSize := by norm_num [pageSize]
  have hpage : ∀ i : Nat, (getOpcUaDoc content (i + 1)).content =
      List.intercalate ['\n']
        (((content.splitOn '\n').drop (i * pageSize)).take pageSize) := by
    intro i
    show List.intercalate ['\n']
      (((content.splitOn '\n').drop ((i + 1 - 1) * pageSize)).take pageSize) = _
    norm_num
  have hP : (getOpcUaDoc content 1).totalPages =
      ((content.splitOn '\n').length + pageSize - 1) / pageSize := rfl
  rw [hP, List.map_congr_left (fun i _ => hpage i)]
  have hmm : (List.range (((content.splitOn '\n').length + pageSize - 1) / pageSize)).map
      (fun i => List.intercalate ['\n']
        (((content.splitOn '\n').drop (i * pageSize)).take pageSize)) =
      ((List.range (((content.splitOn '\n').length + pageSize - 1) / pageSize)).map
        (fun i => ((content.splitOn '\n').drop (i * pageSize)).take pageSize)).map
          (List.intercalate ['\n']) := by
    rw [List.map_map]
    rfl
  rw [hmm, intercalate_map_intercalate, chunks_flatten pageSize hk _ _ rfl,
    List.intercalate_splitOn]
  intro x hx
  rcases List.mem_map.mp hx with ⟨i, hi, hxe⟩
  rw [← hxe]
  exact chunk_ne_nil pageSize hk _ i (List.mem_range.mp hi)

theorem getOpcUaDoc_content (c : List Char) (p : Nat) :
    (getOpcUaDoc c p).content =
      List.intercalate ['\n'] (((c.splitOn '\n').drop ((p - 1) * pageSize)).take pageSize) := rfl

theorem getOpcUaDoc_totalPages (c : List Char) (p : Nat) :
    (getOpcUaDoc c p).totalPages =
      ((c.splitOn '\n').length + pageSize - 1) / pageSize := rfl

theorem splitOn_replicate_newline (n : Nat) :
    (List.replicate n '\n').splitOn '\n' = List.replicate (n + 1) ([] : List Char) := by
  induction n with
  | zero => rfl
  | succ m ih =>
      rw [List.replicate_succ, List.splitOn, List.splitOnP_cons]
      rw [if_pos (by decide), ← List.splitOn, ih]
      exact (List.replicate_succ _ _).symm

theorem intercalate_replicate_nil (m : Nat) :
    List.intercalate ['\n'] (List.replicate (m + 1) ([] : List Char)) =
      List.replicate m '\n' := by
  induction m with
  | zero => rfl
  | succ m ih =>
      have h2 : List.replicate (m + 1 + 1) ([] : List Char) =
          [] :: [] :: List.replicate m [] := by
        rw [List.replicate_succ, List.replicate_succ]
      rw [h2, intercalate_cons_cons,
        show ([] :: List.replicate m ([] : List Char)) = List.replicate (m + 1) [] from
          (List.replicate_succ _ _).symm,
        ih]
      rw [List.replicate_succ]
      rfl

/-- Claim C3, counterexample: a rendered text of 1001 lines (1000
newline characters) has two pages, and concatenating the two page
content strings yields 999 newlines, not the original 1000 — the newline
at the page boundary is lost, so plain concatenation does not reproduce
the full text. -/
theorem C3_counterexample :
    (getOpcUaDoc bigContent 1).totalPages = 2 ∧
    (getOpcUaDoc bigContent 1).content ++ (getOpcUaDoc bigContent 2).content ≠
      bigContent := by
  have hsplit : bigContent.splitOn '\n' = List.replicate 1001 ([] : List Char) :=
    splitOn_replicate_newline 1000
  constructor
  · rw [getOpcUaDoc_totalPages, hsplit, List.length_replicate]
    rfl
  · rw [getOpcUaDoc_content, getOpcUaDoc_content, hsplit]
    have hd1 : (List.replicate 1001 ([] : List Char)).drop ((1 - 1) * pageSize) =
        List.replicate 1001 [] := by
      rw [show (1 - 1) * pageSize = 0 by rfl, List.drop_zero]
    have hd2 : (List.replicate 1001 ([] : List Char)).drop ((2 - 1) * pageSize) =
        List.replicate 1 [] := by
      rw [show (2 - 1) * pageSize = 1000 by rfl, List.drop_replicate]
    have ht1 : (List.replicate 1001 ([] : List Char)).take pageSize =
        List.replicate 1000 [] := by
      rw [List.take_replicate]
      rfl
    have ht2 : (List.replicate 1 ([] : List Char)).take pageSize =
        List.replicate 1 [] := by
      rw [List.take_replicate]
      rfl
    rw [hd1, hd2, ht1, ht2,
      show (1000 : Nat) = 999 + 1 from rfl,
      show (1 : Nat) = 0 + 1 from rfl,
      intercalate_replicate_nil, intercalate_replicate_nil]
    intro hcon
    have hlen := congrArg List.length hcon
    rw [List.length_append, List.length_replicate, List.length_replicate] at hlen
    have hbl : bigContent.length = 1000 := by
      rw [show bigContent = List.replicate 1000 '\n' from rfl, List.length_replicate]
    omega

theorem jsGet_cons (q : String × α) (t : List (String × α)) (k : String) :
    jsGet (q :: t) k = if q.1 = k then some q.2 else jsGet t k := by
  by_cases h : q.1 = k
  · rw [if_pos h, jsGet, List.find?_cons,
      show ((q.1 == k) : Bool) = true from beq_iff_eq.mpr h]
    rfl
  · rw [if_neg h]
    unfold jsGet
    rw [List.find?_cons, show ((q.1 == k) : Bool) = false from beq_eq_false_iff_ne.mpr h]

theorem lastSlugMatch_cons (e : NodeSetCatalogEntry) (t : List NodeSetCatalogEntry)
    (s : String) :
    lastSlugMatch (e :: t) s =
      (lastSlugMatch t s).or
        (if NodeSetCatalog.normalize e.slug == s then some e else none) := by
  unfold lastSlugMatch
  rw [List.reverse_cons, List.find?_append]
  congr 1
  rw [List.find?_cons]
  cases h : (NodeSetCatalog.normalize e.slug == s) <;> rfl

theorem setFold_get (l : List NodeSetCatalogEntry) :
    ∀ (m0 : List (String × NodeSetCatalogEntry)) (s : String),
      jsGet (l.foldl (fun m entry => jsSet m (NodeSetCatalog.normalize entry.slug) entry) m0) s =
        (lastSlugMatch l s).or (jsGet m0 s) := by
  induction l with
  | nil =>
      intro m0 s
      rw [List.foldl_nil]
      rfl
  | cons e t ih =>
      intro m0 s
      rw [List.foldl_cons, ih, lastSlugMatch_cons, Option.or_assoc]
      congr 1
      by_cases h : NodeSetCatalog.normalize e.slug = s
      · rw [if_pos (beq_iff_eq.mpr h), h, jsGet_jsSet_self]
        cases jsGet m0 s <;> rfl
      · rw [if_neg (by simpa using h), jsGet_jsSet_ne m0 _ (fun he => h he.symm)]
        cases jsGet m0 s <;> rfl

theorem setIfAbsentFold_get (l : List NodeSetCatalogEntry) :
    ∀ (m0 : List (String × NodeSetCatalogEntry)) (s : String),
      jsGet (l.foldl
        (fun m entry =>
          if jsHas m (NodeSetCatalog.normalize entry.slug) then m
          else jsSet m (NodeSetCatalog.normalize entry.slug) entry) m0) s =
        (jsGet m0 s).or (firstSlugMatch l s) := by
  induction l with
  | nil =>
      intro m0 s
      rw [List.foldl_nil]
      cases jsGet m0 s <;> rfl
  | cons e t ih =>
      intro m0 s
      rw [List.foldl_cons, ih]
      unfold firstSlugMatch
      rw [List.find?_cons]
      by_cases hp : NodeSetCatalog.normalize e.slug = s
      · rw [beq_iff_eq.mpr hp]
        by_cases hhas : jsHas m0 (NodeSetCatalog.normalize e.slug) = true
        · rw [if_pos hhas]
          have hsome : (jsGet m0 s).isSome := by
            rw [jsGet_isSome_iff]
            exact hp ▸ (jsHas_eq_true_iff m0 _).mp hhas
          rcases Option.isSome_iff_exists.mp hsome with ⟨v, hv⟩
          rw [hv]
          rfl
        · rw [if_neg hhas]
          have hnone : jsGet m0 s = none := by
            rw [jsGet_eq_none_iff]
            intro hmem
            exact hhas ((jsHas_eq_true_iff m0 _).mpr (hp ▸ hmem))
          have hself : jsGet (jsSet m0 (NodeSetCatalog.normalize e.slug) e) s = some e := by
            rw [← hp]
            exact jsGet_jsSet_self m0 _ e
          rw [hself, hnone]
          rfl
      · rw [show ((NodeSetCatalog.normalize e.slug == s) : Bool) = false from
          beq_eq_false_iff_ne.mpr hp]
        by_cases hhas : jsHas m0 (NodeSetCatalog.normalize e.slug) = true
        · rw [if_pos hhas]
        · rw [if_neg hhas, jsGet_jsSet_ne m0 _ (fun he => hp he.symm)]

theorem valuesFind_eq_get (s : String) :
    ∀ (m : List (String × NodeSetCatalogEntry)), slugInvariant m →
      (jsValues m).find? (fun c => NodeSetCatalog.normalize c.slug == s) = jsGet m s := by
  intro m
  induction m with
  | nil => intro _; rfl
  | cons q t ih =>
      intro hinv
      have hq : NodeSetCatalog.normalize q.2.slug = q.1 := hinv q (List.mem_cons_self q t)
      show ((q.2 :: jsValues t).find? (fun c => NodeSetCatalog.normalize c.slug == s)) = _
      rw [List.find?_cons, hq, jsGet_cons]
      by_cases h : q.1 = s
      · rw [show ((q.1 == s) : Bool) = true from beq_iff_eq.mpr h, if_pos h]
      · rw [show ((q.1 == s) : Bool) = false from beq_eq_false_iff_ne.mpr h, if_neg h]
        exact ih (fun p hp => hinv p (List.mem_cons_of_mem q hp))

theorem lastSlugMatch_values_eq_get (s : String) :
    ∀ (m : List (String × NodeSetCatalogEntry)), slugInvariant m →
      (jsKeys m).Nodup →
      lastSlugMatch (jsValues m) s = jsGet m s := by
  intro m
  induction m with
  | nil => intro _ _; rfl
  | cons q t ih =>
      intro hinv hnd
      have hq : NodeSetCatalog.normalize q.2.slug = q.1 := hinv q (List.mem_cons_self q t)
      have hndc : (q.1 :: jsKeys t).Nodup := hnd
      have hnd0 := List.nodup_cons.mp hndc
      show lastSlugMatch (q.2 :: jsValues t) s = _
      rw [lastSlugMatch_cons,
        ih (fun p hp => hinv p (List.mem_cons_of_mem q hp)) hnd0.2, hq, jsGet_cons]
      by_cases h : q.1 = s
      · have hnone : jsGet t s = none := by
          rw [jsGet_eq_none_iff]
          exact h ▸ hnd0.1
        rw [hnone, if_pos (beq_iff_eq.mpr h), if_pos h]
        rfl
      · rw [if_neg (fun hb => h (beq_iff_eq.mp hb)), if_neg h]
        cases jsGet t s <;> rfl

theorem slugInvariant_jsSet {m : List (String × NodeSetCatalogEntry)}
    (hinv : slugInvariant m) (e : NodeSetCatalogEntry) :
    slugInvariant (jsSet m (NodeSetCatalog.normalize e.slug) e) := by
  intro p hp
  unfold jsSet at hp
  by_cases hhas : jsHas m (NodeSetCatalog.normalize e.slug) = true
  · rw [if_pos hhas] at hp
    rcases List.mem_map.mp hp with ⟨q, hq, he⟩
    by_cases hqk : (q.1 == NodeSetCatalog.normalize e.slug) = true
    · rw [if_pos hqk] at he
      rw [← he]
    · rw [if_neg hqk] at he
      rw [← he]
      exact hinv q hq
  · rw [if_neg hhas] at hp
    rcases List.mem_append.mp hp with hq | hq
    · exact hinv p hq
    · rcases List.mem_singleton.mp hq with rfl
      rfl

theorem slugInvariant_setFold (l : List NodeSetCatalogEntry) :
    ∀ m0, slugInvariant m0 →
      slugInvariant (l.foldl
        (fun m entry => jsSet m (NodeSetCatalog.normalize entry.slug) entry) m0) := by
  induction l with
  | nil => intro m0 h; exact h
  | cons e t ih =>
      intro m0 h
      exact ih _ (slugInvariant_jsSet h e)

theorem slugInvariant_setIfAbsentFold (l : List NodeSetCatalogEntry) :
    ∀ m0, slugInvariant m0 →
      slugInvariant (l.foldl
        (fun m entry =>
          if jsHas m (NodeSetCatalog.normalize entry.slug) then m
          else jsSet m (NodeSetCatalog.normalize entry.slug) entry) m0) := by
  induction l with
  | nil => intro m0 h; exact h
  | cons e t ih =>
      intro m0 h
      refine ih _ ?_
      show slugInvariant
        (if jsHas m0 (NodeSetCatalog.normalize e.slug) = true then m0
         else jsSet m0 (NodeSetCatalog.normalize e.slug) e)
      by_cases hhas : jsHas m0 (NodeSetCatalog.normalize e.slug) = true
      · rw [if_pos hhas]; exact h
      · rw [if_neg hhas]; exact slugInvariant_jsSet h e

theorem keysNodup_setFold (l : List NodeSetCatalogEntry) :
    ∀ m0 : List (String × NodeSetCatalogEntry), (jsKeys m0).Nodup →
      (jsKeys (l.foldl
        (fun m entry => jsSet m (NodeSetCatalog.normalize entry.slug) entry) m0)).Nodup := by
  induction l with
  | nil => intro m0 h; exact h
  | cons e t ih =>
      intro m0 h
      exact ih _ (jsKeys_nodup_jsSet _ h)

theorem keysNodup_setIfAbsentFold (l : List NodeSetCatalogEntry) :
    ∀ m0 : List (String × NodeSetCatalogEntry), (jsKeys m0).Nodup →
      (jsKeys (l.foldl
        (fun m entry =>
          if jsHas m (NodeSetCatalog.normalize entry.slug) then m
          else jsSet m (NodeSetCatalog.normalize entry.slug) entry) m0)).Nodup := by
  induction l with
  | nil => intro m0 h; exact h
  | cons e t ih =>
      intro m0 h
      refine ih _ ?_
      show (jsKeys
        (if jsHas m0 (NodeSetCatalog.normalize e.slug) = true then m0
         else jsSet m0 (NodeSetCatalog.normalize e.slug) e)).Nodup
      by_cases hhas : jsHas m0 (NodeSetCatalog.normalize e.slug) = true
      · rw [if_pos hhas]; exact h
      · rw [if_neg hhas]; exact jsKeys_nodup_jsSet _ h

theorem mergeMap_get (primary fallback overrides : List NodeSetCatalogEntry) (s : String) :
    jsGet (mergeMap primary fallback overrides) s =
      (lastSlugMatch overrides s).or
        ((lastSlugMatch primary s).or (firstSlugMatch fallback s)) := by
  unfold mergeMap
  rw [setFold_get, setIfAbsentFold_get, setFold_get,
    show jsGet ([] : List (String × NodeSetCatalogEntry)) s = none from rfl,
    Option.or_none]

theorem mergeMap_inv (primary fallback overrides : List NodeSetCatalogEntry) :
    slugInvariant (mergeMap primary fallback overrides) := by
  unfold mergeMap
  exact slugInvariant_setFold _ _
    (slugInvariant_setIfAbsentFold _ _
      (slugInvariant_setFold _ _ (fun p hp => absurd hp (List.not_mem_nil p))))

theorem mergeMap_nodup (primary fallback overrides : List NodeSetCatalogEntry) :
    (jsKeys (mergeMap primary fallback overrides)).Nodup := by
  unfold mergeMap
  exact keysNodup_setFold _ _
    (keysNodup_setIfAbsentFold _ _ (keysNodup_setFold _ _ List.nodup_nil))

theorem resolve_characterization (remote : Option (List NodeSetCatalogEntry))
    (persisted : List NodeSetCatalogEntry) (slug : String) :
    NodeSetCatalog.resolve remote persisted slug =
      (lastSlugMatch persisted (NodeSetCatalog.normalize slug)).or
        ((lastSlugMatch (remote.getD builtinEntries) (NodeSetCatalog.normalize slug)).or
          (firstSlugMatch builtinEntries (NodeSetCatalog.normalize slug))) := by
  unfold NodeSetCatalog.resolve computeEntries
  rw [show mergeEntries
      (mergeEntries (remote.getD builtinEntries) builtinEntries []) [] persisted =
      jsValues (mergeMap (mergeEntries (remote.getD builtinEntries) builtinEntries [])
        [] persisted) from rfl]
  rw [valuesFind_eq_get _ _ (mergeMap_inv _ _ _), mergeMap_get]
  rw [show mergeEntries (remote.getD builtinEntries) builtinEntries [] =
      jsValues (mergeMap (remote.getD builtinEntries) builtinEntries []) from rfl]
  rw [lastSlugMatch_values_eq_get _ _ (mergeMap_inv _ _ _) (mergeMap_nodup _ _ _),
    mergeMap_get]
  rw [show firstSlugMatch [] (NodeSetCatalog.normalize slug) = none from rfl,
    show lastSlugMatch [] (NodeSetCatalog.normalize slug) = none from rfl,
    Option.or_none, Option.none_or]

/-- Claim C4: in the merged visible entry set, persisted overrides
shadow remotely discovered entries with the same normalized slug, and
remotely discovered entries shadow built-ins: `resolve` returns the last
persisted match if any, else the last remote match (built-ins standing
in for a failed discovery), else the built-in entry; in particular, with
a built-in `core` entry and a persisted `core` override, `resolve "core"`
returns the override. -/
theorem C4_theorem (remote : Option (List NodeSetCatalogEntry))
    (persisted : List NodeSetCatalogEntry) (slug : String) :
    NodeSetCatalog.resolve remote persisted slug =
      (lastSlugMatch persisted (NodeSetCatalog.normalize slug)).or
        ((lastSlugMatch (remote.getD builtinEntries) (NodeSetCatalog.normalize slug)).or
          (firstSlugMatch builtinEntries (NodeSetCatalog.normalize slug))) ∧
    NodeSetCatalog.resolve none [coreOverride] "core" = some coreOverride := by
  refine ⟨resolve_characterization remote persisted slug, ?_⟩
  rw [resolve_characterization]
  rw [show lastSlugMatch [coreOverride] (NodeSetCatalog.normalize "core") =
    some coreOverride from by decide]
  rfl

/-- Claim C5: when the persistent store holds a document under
`nodesets/<slug>`, loading that slug performs no document fetch and no
parse whatever the source loader would do (the counters and the store
are untouched), and — when the in-memory tier does not already hold the
slug, so the lookup actually runs — the returned document is exactly the
stored one. -/
theorem C5_theorem (loadBySlug : String → LoaderState → NodeSet × LoaderState)
    (slug : String) (st : LoaderState) (ns : NodeSet)
    (h : jsGet st.store (cacheKey slug) = some ns) :
    ((loadNodeSet loadBySlug slug st).2.fetchCalls = st.fetchCalls ∧
      (loadNodeSet loadBySlug slug st).2.parseCalls = st.parseCalls ∧
      (loadNodeSet loadBySlug slug st).2.store = st.store) ∧
    (jsGet st.memCache slug = none → (loadNodeSet loadBySlug slug st).1 = ns) := by
  unfold loadNodeSet
  cases hm : jsGet st.memCache slug with
  | some cached =>
      exact ⟨⟨rfl, rfl, rfl⟩, fun hc => Option.noConfusion hc⟩
  | none =>
      unfold cacheLookup
      rw [h]
      exact ⟨⟨rfl, rfl, rfl⟩, fun _ => rfl⟩

/-- Claim C5 witness: a persistent-store hit for the slug `di` leaves the
fetch and parse counters at zero and returns the stored document. -/
theorem C5_witness :
    ((loadNodeSet demoLoad ("di") demoState).2.fetchCalls = demoState.fetchCalls ∧
      (loadNodeSet demoLoad ("di") demoState).2.parseCalls = demoState.parseCalls ∧
      (loadNodeSet demoLoad ("di") demoState).2.store = demoState.store) ∧
    (jsGet demoState.memCache ("di") = none →
      (loadNodeSet demoLoad ("di") demoState).1 = demoNodeSet) :=
  C5_theorem demoLoad ("di") demoState demoNodeSet (by decide)

/-- Claim C10: the not-found fallback text is produced exactly for an id
that indexes an existing search document whose backing node id is absent
from the graph (a graph hit renders the node instead), while every id
outside `[0, docs.length)` dereferences an undefined document record and
fails with a defect rather than fallback text or a typed error. -/
theorem C10_theorem (docs : List NodeDocumentEntry)
    (graphGet : String → Option NodeGraphEntry) :
    (∀ (i : Nat) (doc : NodeDocumentEntry), docs.get? i = some doc →
      (graphGet doc.nodeId = none →
        renderLookup docs graphGet i =
          Except.ok ("# " ++ doc.title ++ "\n\nNode not found in graph.")) ∧
      (∀ entry, graphGet doc.nodeId = some entry →
        renderLookup docs graphGet i =
          Except.ok (renderNodeAsMarkdown entry doc.node))) ∧
    (∀ id : Int, (id < 0 ∨ (docs.length : Int) ≤ id) →
      renderLookup docs graphGet id = Except.error RenderDefect.undefinedDocAccess) := by
  constructor
  · intro i doc hdoc
    have hig : renderLookup docs graphGet i =
        match graphGet doc.nodeId with
        | none => Except.ok ("# " ++ doc.title ++ "\n\nNode not found in graph.")
        | some entry => Except.ok (renderNodeAsMarkdown entry doc.node) := by
      unfold renderLookup
      rw [if_pos (Int.ofNat_nonneg i), Int.toNat_ofNat, hdoc]
    constructor
    · intro hnone
      rw [hig, hnone]
    · intro entry hsome
      rw [hig, hsome]
  · intro id hout
    rcases hout with hneg | hbig
    · unfold renderLookup
      rw [if_neg (by omega)]
    · unfold renderLookup
      by_cases h0 : 0 ≤ id
      · rw [if_pos h0]
        have hlen : docs.length ≤ id.toNat := by
          have := Int.toNat_of_nonneg h0
          omega
        rw [List.get?_eq_none.mpr hlen]
      · rw [if_neg h0]

/-- Claim C10 witness: with a one-document index over an empty graph,
id 0 yields the fallback text and id -1 dies with the defect. -/
theorem C10_witness :
    renderLookup [demoDoc] (fun _ => none) 0 =
      Except.ok ("# " ++ demoDoc.title ++ "\n\nNode not found in graph.") ∧
    renderLookup [demoDoc] (fun _ => none) (-1) =
      Except.error RenderDefect.undefinedDocAccess :=
  ⟨((C10_theorem [demoDoc] (fun _ => none)).1 0 demoDoc rfl).1 rfl,
    (C10_theorem [demoDoc] (fun _ => none)).2 (-1) (Or.inl (by decide))⟩
